import Mathlib

/-!
Shallow embedding of the interactive contract-call driver of
`src/commands/interactive-ui.js` (the `interactiveUi` command), together with
the pieces of the status/navigation code the verified properties refer to.

JavaScript strings are modelled as Lean `String`s, with the JS operations
(`includes`, `toLowerCase`, `split`, `indexOf`, `splice`, `unshift`)
re-implemented over `String.data` so that every definition is executable by
the kernel.  ABI entries are modelled with an `Option String` name so that a
missing (`undefined`) name is distinguished from an empty one, as both are
falsy in JS but compare differently under `===`.
-/

/-! ## JS string primitives -/

/-- JS `String.prototype.toLowerCase` (ASCII, which covers contract and
function identifiers). -/
def jsToLower (s : String) : String := String.mk (s.data.map Char.toLower)

/-- JS `String.prototype.includes`: the second string occurs as a contiguous
substring of the first. -/
def strIncludes (s q : String) : Bool :=
  s.data.tails.any fun t => q.data.isPrefixOf t

/-- Helper for `jsSplit`: accumulates the current piece (reversed) while
scanning the character list. -/
def jsSplitAux (sep : Char) : List Char → List Char → List (List Char)
  | acc, [] => [acc.reverse]
  | acc, c :: cs =>
    if c == sep then acc.reverse :: jsSplitAux sep [] cs
    else jsSplitAux sep (c :: acc) cs

/-- JS `String.prototype.split` with a single-character separator
(`raw.split(',')`, `signature.split('(')`).  Like in JS,
`jsSplit ',' "" = [""]` and the result is never empty. -/
def jsSplit (sep : Char) (s : String) : List String :=
  (jsSplitAux sep [] s.data).map fun cs => String.mk cs

/-- Inner loop of the Levenshtein edit distance: distance from `a :: as`
(where `levTail` computes distances from `as` and `delCost = as.length + 1`)
to the second string, structurally recursive so the kernel can evaluate it. -/
def levGo (a : Char) (delCost : Nat) (levTail : List Char → Nat) : List Char → Nat
  | [] => delCost
  | b :: bs =>
    if a == b then levTail bs
    else 1 + min (levTail bs) (min (levGo a delCost levTail bs) (levTail (b :: bs)))

/-- Levenshtein edit distance between two character lists, as computed by the
`js-levenshtein` dependency used to rank function matches. -/
def jsLevenshtein : List Char → List Char → Nat
  | [], bs => bs.length
  | a :: as, bs => levGo a (as.length + 1) (jsLevenshtein as) bs

/-! ## Stable sort by a numeric key

`Array.prototype.sort` with the comparator `(a, b) => key(a) - key(b)` is a
stable ascending sort by `key` (stability is mandated by the ECMAScript
specification).  It is modelled as a stable insertion sort. -/

/-- Insert `x` in front of the first element whose key is not smaller;
elements with a key equal to `key x` that are already in the list stay in
front of `x` only if they come earlier, which is what stability demands for
the fold in `jsSortByKey`. -/
def orderedInsertK {α : Type} (key : α → Nat) (x : α) : List α → List α
  | [] => [x]
  | y :: ys => if key x ≤ key y then x :: y :: ys else y :: orderedInsertK key x ys

/-- Stable ascending sort by `key`, modelling the JS comparator sort. -/
def jsSortByKey {α : Type} (key : α → Nat) : List α → List α
  | [] => []
  | x :: xs => orderedInsertK key x (jsSortByKey key xs)

/-! ## ABI data model

`FunctionDescriptor`s are the ABI entries of the deployment's `source.abi`
array.  The entry name is `Option String`: JS `undefined` (`none`) and the
empty string are both falsy, but only a `some` name can satisfy the strict
equality `item.name === abiItemName` used to resolve the selected entry. -/

structure AbiParam where
  name : String
  type : String
deriving DecidableEq, Repr

structure AbiItem where
  name : Option String
  type : String
  inputs : List AbiParam
  outputs : List AbiParam
  stateMutability : String
deriving DecidableEq, Repr

/-- The string a JS template literal renders for the entry name
(`` `${item.name}` `` prints `undefined` for a missing name). -/
def abiItemNameStr (item : AbiItem) : String := item.name.getD "undefined"

/-! ## Contract Navigator (`pickContract`) -/

/-- Helper for JS `Array.prototype.indexOf`: `-1` when absent. -/
def jsIndexOfAux (x : String) : List String → Nat → Int
  | [], _ => -1
  | y :: ys, i => if y = x then (i : Int) else jsIndexOfAux x ys (i + 1)

/-- JS `targets.indexOf(itemName)`. -/
def jsIndexOf (x : String) (l : List String) : Int := jsIndexOfAux x l 0

/-- JS `l.splice(start, 1)` (the mutated array): a negative `start` counts
from the end, clamped at `0`; at most one element is removed. -/
def jsSpliceRemoveOne {α : Type} (start : Int) (l : List α) : List α :=
  let s : Nat := if start < 0 then ((l.length : Int) + start).toNat
    else min start.toNat l.length
  l.take s ++ l.drop (s + 1)

/-- The `prioritizeTarget` helper of `pickContract`:
`targets.splice(targets.indexOf(itemName), 1); targets.unshift(itemName)`. -/
def prioritizeTarget (itemName : String) (targets : List String) : List String :=
  itemName :: jsSpliceRemoveOne (jsIndexOf itemName targets) targets

/-- The `searchTargets` filter: keep the contract names whose lower-cased text contains
the lower-cased query. -/
def searchTargets (targets : List String) (query : String) : List String :=
  targets.filter fun target => strIncludes (jsToLower target) (jsToLower query)

/-! ## Function Selector (`pickFunction`: `searchAbi` and signature display) -/

/-- The `combineNameAndType` helper: render each parameter as `type name`, or just
`type` when the name is falsy (empty). -/
def combineNameAndType (items : List AbiParam) : List String :=
  items.map fun item => if item.name = "" then item.type else item.type ++ " " ++ item.name

/-- JS `strings.join(', ')`. -/
def joinComma : List String → String
  | [] => ""
  | [s] => s
  | s :: rest => s ++ ", " ++ joinComma rest

/-- The `reduceSignature` display form:
`name(type1 name1, ...)`, suffixed with ` returns(...)` when outputs exist
and with the ` view` qualifier in front of the returns-suffix when the
function is read-only. -/
def reduceSignature (item : AbiItem) : String :=
  let inputs := combineNameAndType item.inputs
  let inputPart := abiItemNameStr item ++ "(" ++ joinComma inputs ++ ")"
  let outputs := combineNameAndType item.outputs
  let outputPart := if outputs.length > 0 then " returns(" ++ joinComma outputs ++ ")" else ""
  let outputPart := if item.stateMutability = "view" then " view" ++ outputPart else outputPart
  inputPart ++ outputPart

/-- The synthetic back entry prepended for the empty query. -/
def escItem : String := "↩ BACK"

/-- The filter step of `searchAbi`: keep only named, `function`-typed
entries whose lower-cased name contains the lower-cased query. -/
def searchAbiPred (query : String) (item : AbiItem) : Bool :=
  match item.name with
  | none => false
  | some n =>
    if n = "" then false
    else if item.type = "function" then strIncludes (jsToLower n) (jsToLower query)
    else false

def searchAbiFilter (abi : List AbiItem) (query : String) : List AbiItem :=
  abi.filter (searchAbiPred query)

/-- The sort key of `searchAbi`: `levenshtein(item.name, query)`. -/
def abiProximity (query : String) (item : AbiItem) : Nat :=
  jsLevenshtein (abiItemNameStr item).data query.data

/-- The ranked matches of `searchAbi` (filter, then the stable comparator
sort by proximity to the query). -/
def searchAbiRank (abi : List AbiItem) (query : String) : List AbiItem :=
  jsSortByKey (abiProximity query) (searchAbiFilter abi query)

/-- The full `searchAbi`: the displayed candidate list — ranked signatures, with the
back entry spliced in at position 0 when the query is empty. -/
def searchAbi (abi : List AbiItem) (query : String) : List String :=
  let signatures := (searchAbiRank abi query).map reduceSignature
  if query = "" then escItem :: signatures else signatures

/-- JS `abiItemSignature.split('(')[0]`: the text before the first `(`. -/
def abiItemNameOf (sig : String) : String := (jsSplit '(' sig).headD ""

/-- JS `source.abi.find(item => item.name === abiItemName)`: the entry the
driver actually prompts for and executes. -/
def findAbiItem (abi : List AbiItem) (sig : String) : Option AbiItem :=
  abi.find? fun item => item.name = some (abiItemNameOf sig)

/-! ## Input Coercion (`pickFunction`, input processing) -/

/-- The processed value for one input parameter: a single JS value or an
array of values (values stay strings; `toBytes32` is the collaborator's
canonical string-to-word conversion, passed in abstractly). -/
inductive CoercedValue where
  | single : String → CoercedValue
  | many : List String → CoercedValue
deriving DecidableEq, Repr

/-- The per-parameter coercion:
`requiresBytes32Util = input.type.includes('bytes32')`,
`isArray = input.type.includes('[]')`; arrays are split on commas first,
then each piece (or the single raw string) is converted when the type is a
fixed-word type. -/
def coerceInput (toBytes32 : String → String) (ty raw : String) : CoercedValue :=
  let requiresBytes32Util := strIncludes ty "bytes32"
  let isArray := strIncludes ty "[]"
  if isArray then
    let parts := jsSplit ',' raw
    if requiresBytes32Util then .many (parts.map toBytes32) else .many parts
  else
    if requiresBytes32Util then .single (toBytes32 raw) else .single raw

/-! ## Call Driver (`pickFunction`, call execution)

The driver's control flow is modelled as one step of an explicit state
machine.  The collaborator outcomes (the chain read, `stageTx`, and the
submit/await-receipt halves of `runTx`) are inputs to the step function;
the step records which transaction phases were attempted, the outcome that
reaches the reporting code (if any), and the state entered next.

`stageTx`/`runTx` live in `src/utils/runTx.js`, which is not part of the
sources here.  Modelled from the spec: `stage(txPromise, provider)` builds
the transaction and yields `{success, tx | error}` without broadcasting;
`run(tx, provider)` submits it and then awaits its receipt, each of which
can independently fail, yielding `{success, receipt | error}`. -/

inductive Phase where
  | stage
  | submit
  | awaitReceipt
deriving DecidableEq, Repr

/-- The two interactive states of the session loop. -/
inductive Control (γ : Type) where
  | functionSelector : γ → Control γ
  | contractNavigator : Control γ

/-- One driver step: transaction phases attempted (in order), the outcome
handed to the reporting code (`none` on the declined-confirmation path,
which reports nothing), and the next state. -/
structure StepResult (γ ε ρ : Type) where
  phases : List Phase
  reported : Option (Except ε ρ)
  next : Control γ

/-- Modelled from the spec: `runTx` of `src/utils/runTx.js` (absent from the
sources) submits the staged transaction and then awaits its receipt;
a submission failure short-circuits the receipt wait. -/
def runTxModel {ε σ ρ : Type} (submitRes : Except ε σ) (waitRes : σ → Except ε ρ) :
    List Phase × Except ε ρ :=
  match submitRes with
  | .error e => ([Phase.submit], .error e)
  | .ok sent =>
    match waitRes sent with
    | .error e => ([Phase.submit, Phase.awaitReceipt], .error e)
    | .ok receipt => ([Phase.submit, Phase.awaitReceipt], .ok receipt)

/-- The confirmed mutating-call sequence of `pickFunction`: stage via
`stageTx`; on `success` run the rest (`runTx`), otherwise carry the stage
error forward as the outcome. -/
def mutatingCall {ε τ ρ : Type} (stageRes : Except ε τ)
    (runOf : τ → List Phase × Except ε ρ) : List Phase × Except ε ρ :=
  match stageRes with
  | .error e => ([Phase.stage], .error e)
  | .ok tx => (Phase.stage :: (runOf tx).1, (runOf tx).2)

/-- One full step of the call part of `pickFunction` for the contract
`contract`: a view call queries and captures the result or the thrown
error; a mutating call asks for confirmation first — declined, it re-enters
the function selector untouched; confirmed, it stages, submits and awaits
the receipt with short-circuiting.  Every path ends back in the function
selector for the same contract. -/
def callDriverStep {γ ε τ σ ρ : Type} (contract : γ) (isView confirmation : Bool)
    (viewRes : Except ε ρ) (stageRes : Except ε τ)
    (submitRes : τ → Except ε σ) (waitRes : σ → Except ε ρ) : StepResult γ ε ρ :=
  if isView then
    { phases := [], reported := some viewRes, next := .functionSelector contract }
  else if !confirmation then
    { phases := [], reported := none, next := .functionSelector contract }
  else
    let r := mutatingCall stageRes fun tx => runTxModel (submitRes tx) waitRes
    { phases := r.1, reported := some r.2, next := .functionSelector contract }

/-- The top-level `program.action` wrapper: an error escaping `interactiveUi`
is printed and the process exit code is set to `1`; otherwise `0`. -/
def topLevelExitCode {ε : Type} (session : Except ε Unit) : Nat :=
  match session with
  | .ok _ => 0
  | .error _ => 1

/-! ## Result reporting (`pickFunction`, output display) -/

/-- The label printed for one output value: `name(type)`. -/
def printReturnedLabel (o : AbiParam) : String := o.name ++ "(" ++ o.type ++ ")"

/-- A JS runtime fault in the reporting code (reading a member of
`undefined`). -/
inductive ReportFault where
  | undefinedMemberAccess
deriving DecidableEq, Repr

/-- The view-result display: with more than one declared output, print one
labelled line per output; otherwise read `abiItem.outputs[0]` — which is
`undefined` for an empty outputs list, so taking its `.name` faults. -/
def reportViewOutputs (outputs : List AbiParam) : Except ReportFault (List String) :=
  if outputs.length > 1 then
    .ok (outputs.map printReturnedLabel)
  else
    match outputs[0]? with
    | none => .error .undefinedMemberAccess
    | some o => .ok [printReturnedLabel o]

/-- The guard around the view-result display: it runs only for a `view`
call whose captured result is defined. -/
def reportStep (stateMutability : String) (resultDefined : Bool)
    (outputs : List AbiParam) : Except ReportFault (List String) :=
  if stateMutability = "view" then
    if resultDefined then reportViewOutputs outputs else .ok []
  else .ok []

/-! ## Concrete ABI entries used by the overload divergence (C10) and the
ranking witness (C5) -/

/-- An event sharing the name `foo` with a function, listed first in the ABI. -/
def overloadEvent : AbiItem :=
  { name := some "foo", type := "event", inputs := [⟨"a", "address"⟩],
    outputs := [], stateMutability := "" }

/-- The `function`-typed entry named `foo` that the selector displays. -/
def overloadFn : AbiItem :=
  { name := some "foo", type := "function", inputs := [],
    outputs := [], stateMutability := "view" }

def overloadAbi : List AbiItem := [overloadEvent, overloadFn]

/-- Function entry named `ab` (proximity 0 to the query `ab`). -/
def itemAb : AbiItem :=
  { name := some "ab", type := "function", inputs := [], outputs := [],
    stateMutability := "view" }

/-- Function entry named `abcd` (proximity 2 to the query `ab`). -/
def itemAbcd : AbiItem :=
  { name := some "abcd", type := "function", inputs := [], outputs := [],
    stateMutability := "view" }

/-! ## Helper lemmas -/

theorem isPrefixOf_eq_true {α : Type} [BEq α] [LawfulBEq α] (l₁ l₂ : List α) :
    l₁.isPrefixOf l₂ = true ↔ l₁ <+: l₂ :=
  List.isPrefixOf_iff_prefix

theorem strIncludes_iff (s q : String) : strIncludes s q = true ↔ q.data <:+: s.data := by
  simp only [strIncludes, List.any_eq_true]
  constructor
  · rintro ⟨t, ht, hp⟩
    rw [List.mem_tails] at ht
    rw [isPrefixOf_eq_true] at hp
    exact List.infix_iff_prefix_suffix.mpr ⟨t, hp, ht⟩
  · intro h
    obtain ⟨t, hp, ht⟩ := List.infix_iff_prefix_suffix.mp h
    exact ⟨t, (List.mem_tails _ _).mpr ht, (isPrefixOf_eq_true _ _).mpr hp⟩

/-- Sanity: `jsLevenshtein` satisfies the textbook edit-distance recurrence. -/
theorem jsLevenshtein_cons_cons (a b : Char) (as bs : List Char) :
    jsLevenshtein (a :: as) (b :: bs) =
      if a == b then jsLevenshtein as bs
      else 1 + min (jsLevenshtein as bs)
        (min (jsLevenshtein (a :: as) bs) (jsLevenshtein as (b :: bs))) := by
  simp [jsLevenshtein, levGo]

theorem mem_orderedInsertK {α : Type} (key : α → Nat) (x a : α) (l : List α) :
    a ∈ orderedInsertK key x l ↔ a = x ∨ a ∈ l := by
  induction l with
  | nil => simp [orderedInsertK]
  | cons y ys ih =>
    simp only [orderedInsertK]
    by_cases h : key x ≤ key y
    · rw [if_pos h]; simp
    · rw [if_neg h]; simp [ih]; tauto

theorem pairwise_orderedInsertK {α : Type} (key : α → Nat) (x : α) (l : List α)
    (hl : l.Pairwise fun a b => key a ≤ key b) :
    (orderedInsertK key x l).Pairwise fun a b => key a ≤ key b := by
  induction l with
  | nil => simp [orderedInsertK]
  | cons y ys ih =>
    rw [List.pairwise_cons] at hl
    simp only [orderedInsertK]
    by_cases h : key x ≤ key y
    · rw [if_pos h]
      refine List.pairwise_cons.mpr ⟨?_, List.pairwise_cons.mpr hl⟩
      intro b hb
      rcases List.mem_cons.mp hb with rfl | hb
      · exact h
      · exact le_trans h (hl.1 b hb)
    · rw [if_neg h]
      refine List.pairwise_cons.mpr ⟨?_, ih hl.2⟩
      intro b hb
      rcases (mem_orderedInsertK key x b ys).mp hb with rfl | hb
      · omega
      · exact hl.1 b hb

theorem sorted_jsSortByKey {α : Type} (key : α → Nat) (l : List α) :
    (jsSortByKey key l).Pairwise fun a b => key a ≤ key b := by
  induction l with
  | nil => simp [jsSortByKey]
  | cons x xs ih => exact pairwise_orderedInsertK key x _ ih

theorem filter_orderedInsertK {α : Type} (key : α → Nat) (d : Nat) (x : α) (l : List α) :
    (orderedInsertK key x l).filter (fun a => key a == d) =
      if key x = d then x :: l.filter (fun a => key a == d)
      else l.filter (fun a => key a == d) := by
  induction l with
  | nil =>
    by_cases h : key x = d
    · rw [if_pos h]; simp [orderedInsertK, List.filter_cons, h]
    · rw [if_neg h]; simp [orderedInsertK, List.filter_cons, h]
  | cons y ys ih =>
    simp only [orderedInsertK]
    by_cases hxy : key x ≤ key y
    · rw [if_pos hxy]
      by_cases h : key x = d
      · rw [if_pos h]; simp [List.filter_cons, h]
      · rw [if_neg h]; simp [List.filter_cons, h]
    · rw [if_neg hxy]
      by_cases h : key x = d
      · rw [if_pos h]
        have hy : ¬(key y = d) := by omega
        simp [List.filter_cons, ih, h, hy]
      · rw [if_neg h]
        by_cases hy : key y = d
        · simp [List.filter_cons, ih, h, hy]
        · simp [List.filter_cons, ih, h, hy]

/-- Stability of `jsSortByKey`: the elements at any fixed key keep exactly
their relative order from the input list. -/
theorem filter_jsSortByKey {α : Type} (key : α → Nat) (d : Nat) (l : List α) :
    (jsSortByKey key l).filter (fun a => key a == d) = l.filter (fun a => key a == d) := by
  induction l with
  | nil => rfl
  | cons x xs ih =>
    simp only [jsSortByKey, filter_orderedInsertK, ih]
    by_cases h : key x = d
    · rw [if_pos h]; simp [List.filter_cons, h]
    · rw [if_neg h]; simp [List.filter_cons, h]

theorem searchAbiPred_iff (query : String) (item : AbiItem) :
    searchAbiPred query item = true ↔
      item.type = "function" ∧ ∃ n, item.name = some n ∧ n ≠ "" ∧
        (jsToLower query).data <:+: (jsToLower n).data := by
  unfold searchAbiPred
  match hn : item.name with
  | none => simp
  | some n =>
    by_cases h1 : n = ""
    · subst h1
      simp
    · by_cases h2 : item.type = "function"
      · simp [h1, h2, strIncludes_iff]
      · simp [h1, h2]

theorem jsIndexOfAux_eq_neg_one (x : String) (l : List String) (hx : x ∉ l) :
    ∀ i, jsIndexOfAux x l i = -1 := by
  induction l with
  | nil => intro i; rfl
  | cons y ys ih =>
    intro i
    simp only [jsIndexOfAux]
    rw [if_neg ?_]
    · exact ih (fun h => hx (List.mem_cons_of_mem y h)) (i + 1)
    · rintro rfl
      exact hx (List.mem_cons_self _ _)

theorem jsSpliceRemoveOne_neg_one {α : Type} (l : List α) :
    jsSpliceRemoveOne (-1) l = l.dropLast := by
  unfold jsSpliceRemoveOne
  have hs : (if ((-1 : Int)) < 0 then ((l.length : Int) + (-1)).toNat
      else min ((-1 : Int)).toNat l.length) = l.length - 1 := by
    rw [if_pos (by norm_num)]
    omega
  rw [hs]
  have hd : l.drop (l.length - 1 + 1) = [] := List.drop_eq_nil_of_le (by omega)
  simp only []
  rw [hd, List.append_nil, List.dropLast_eq_take]

/-! ## Claim theorems -/

/-- C7: for every list of known contract names, after the Contract
Navigator's pinning step (`prioritizeTarget('Synthetix')`) the pinned
main-contract name `"Synthetix"` is at position 0 of the presented list,
regardless of the input ordering of the names. -/
theorem claim_C7_pinned_name_first (targets : List String) :
    (prioritizeTarget "Synthetix" targets)[0]? = some "Synthetix" := by
  rw [prioritizeTarget]
  simp

/-- C8: for every contract-name list that does not contain `"Synthetix"`,
`indexOf` yields `-1`, so the `splice(-1, 1)` of the pinning step removes
the list's last element before `"Synthetix"` is prepended — a real contract
name disappears from the presented list. -/
theorem claim_C8_absent_pin_drops_last (l : List String) (hs : "Synthetix" ∉ l) :
    prioritizeTarget "Synthetix" l = "Synthetix" :: l.dropLast
    ∧ ∀ x, l.getLast? = some x → x ∉ l.dropLast →
        x ∉ prioritizeTarget "Synthetix" l := by
  have hidx : jsIndexOf "Synthetix" l = -1 := jsIndexOfAux_eq_neg_one _ _ hs 0
  have h1 : prioritizeTarget "Synthetix" l = "Synthetix" :: l.dropLast := by
    rw [prioritizeTarget, hidx, jsSpliceRemoveOne_neg_one]
  refine ⟨h1, ?_⟩
  intro x hx hnot
  rw [h1]
  intro hmem
  rcases List.mem_cons.mp hmem with rfl | hmem
  · obtain ⟨hne, heq⟩ := List.mem_getLast?_eq_getLast hx
    exact hs (by rw [heq]; exact List.getLast_mem hne)
  · exact hnot hmem

/-- Witness for C8 at the concrete list `["TokenA", "TokenB"]`: the presented
list is `["Synthetix", "TokenA"]` and `"TokenB"` is gone. -/
theorem claim_C8_absent_pin_drops_last_witness :
    prioritizeTarget "Synthetix" ["TokenA", "TokenB"] =
        "Synthetix" :: (["TokenA", "TokenB"] : List String).dropLast
    ∧ "TokenB" ∉ prioritizeTarget "Synthetix" ["TokenA", "TokenB"] := by
  have h := claim_C8_absent_pin_drops_last ["TokenA", "TokenB"] (by decide)
  exact ⟨h.1, h.2 "TokenB" (by decide) (by decide)⟩

/-- C9: for a successful view call (defined result) on a function whose ABI
declares an empty outputs list, the reporting code reads `outputs[0]` —
`undefined` — and faults on its `.name` member instead of printing nothing;
with exactly one declared output it prints that labelled output. -/
theorem claim_C9_empty_outputs_report_faults :
    reportStep "view" true [] = Except.error ReportFault.undefinedMemberAccess
    ∧ ∀ o : AbiParam, reportStep "view" true [o] = Except.ok [printReturnedLabel o] := by
  constructor
  · rfl
  · intro o
    rfl

/-- C4: coercing a parameter whose declared type is both array and
fixed-word from the raw input `"a,b,c"` splits on commas first and then
applies the canonical string-to-word conversion to each piece, yielding the
3-element sequence `[toBytes32 "a", toBytes32 "b", toBytes32 "c"]` in
order. -/
theorem claim_C4_array_bytes32_coercion (toBytes32 : String → String) (ty : String)
    (hb : strIncludes ty "bytes32" = true) (ha : strIncludes ty "[]" = true) :
    coerceInput toBytes32 ty "a,b,c" =
      CoercedValue.many [toBytes32 "a", toBytes32 "b", toBytes32 "c"] := by
  have hsplit : jsSplit ',' "a,b,c" = ["a", "b", "c"] := by decide
  simp [coerceInput, hb, ha, hsplit]

/-- Witness for C4 at the concrete type `"bytes32[]"` and a concrete
conversion function. -/
theorem claim_C4_array_bytes32_coercion_witness :
    coerceInput (fun s => s ++ "32") "bytes32[]" "a,b,c" =
      CoercedValue.many [(fun s => s ++ "32") "a", (fun s => s ++ "32") "b",
        (fun s => s ++ "32") "c"] :=
  claim_C4_array_bytes32_coercion (fun s => s ++ "32") "bytes32[]" (by decide) (by decide)

/-- C6: for every non-empty query, the Contract Navigator keeps exactly the
contract names containing the query as a case-insensitive substring, and
the Function Selector's filter keeps exactly the `function`-typed, named
ABI entries whose name contains the query as a case-insensitive
substring. -/
theorem claim_C6_filters_are_substring_matches (targets : List String)
    (abi : List AbiItem) (query : String) (t : String) (item : AbiItem)
    (_hq : query ≠ "") :
    (t ∈ searchTargets targets query ↔
      t ∈ targets ∧ (jsToLower query).data <:+: (jsToLower t).data)
    ∧ (item ∈ searchAbiFilter abi query ↔
      item ∈ abi ∧ item.type = "function" ∧ ∃ n, item.name = some n ∧ n ≠ "" ∧
        (jsToLower query).data <:+: (jsToLower n).data) := by
  constructor
  · rw [searchTargets, List.mem_filter, strIncludes_iff]
  · rw [searchAbiFilter, List.mem_filter, searchAbiPred_iff]

/-- Witness for C6 at the concrete query `"syn"`, a concrete target list and
a concrete ABI entry. -/
theorem claim_C6_filters_are_substring_matches_witness :
    ("Synthetix" ∈ searchTargets ["Synthetix", "FeePool"] "syn" ↔
      "Synthetix" ∈ ["Synthetix", "FeePool"] ∧
        (jsToLower "syn").data <:+: (jsToLower "Synthetix").data)
    ∧ (overloadFn ∈ searchAbiFilter overloadAbi "syn" ↔
      overloadFn ∈ overloadAbi ∧ overloadFn.type = "function" ∧
        ∃ n, overloadFn.name = some n ∧ n ≠ "" ∧
          (jsToLower "syn").data <:+: (jsToLower n).data) :=
  claim_C6_filters_are_substring_matches ["Synthetix", "FeePool"] overloadAbi "syn"
    "Synthetix" overloadFn (by decide)

/-- C2: for a mutating call, declining the yes/no confirmation re-enters the
Function Selector for the same contract with no side effects — no
transaction phase is attempted and nothing is reported; moreover no step
ever attempts a phase unless the confirmation resolved to yes. -/
theorem claim_C2_decline_is_side_effect_free (γ ε τ σ ρ : Type) (contract : γ)
    (viewRes : Except ε ρ) (stageRes : Except ε τ) (submitRes : τ → Except ε σ)
    (waitRes : σ → Except ε ρ) :
    callDriverStep contract false false viewRes stageRes submitRes waitRes =
      { phases := [], reported := none, next := Control.functionSelector contract }
    ∧ ∀ conf : Bool,
        (callDriverStep contract false conf viewRes stageRes submitRes waitRes).phases ≠ [] →
          conf = true := by
  constructor
  · rfl
  · intro conf h
    cases conf with
    | true => rfl
    | false => exact absurd rfl h

/-- Witness for C2: a concrete confirmed step attempts a phase, discharging
the hypothesis of the second conjunct. -/
theorem claim_C2_decline_is_side_effect_free_witness :
    callDriverStep (0 : Nat) false false (Except.ok (0 : Nat)) (Except.ok (0 : Nat))
        (fun _ => Except.error (0 : Nat)) (fun _ : Nat => Except.ok (0 : Nat)) =
      { phases := [], reported := none, next := Control.functionSelector 0 }
    ∧ true = true := by
  have h := claim_C2_decline_is_side_effect_free Nat Nat Nat Nat Nat 0
    (Except.ok 0) (Except.ok 0) (fun _ => Except.error 0) (fun _ => Except.ok 0)
  exact ⟨h.1, h.2 true (by simp [callDriverStep, mutatingCall, runTxModel])⟩

/-- C3: every call outcome — a successful result or a captured failure from
any phase the driver can fail in — is followed by re-entering the Function
Selector for the same contract; the driver step never terminates the
session, and an error is fatal only by escaping to the top-level
`program.action` handler, which exits with code 1. -/
theorem claim_C3_loop_reenters_selector (γ ε τ σ ρ : Type) (contract : γ)
    (isView confirmation : Bool) (viewRes : Except ε ρ) (stageRes : Except ε τ)
    (submitRes : τ → Except ε σ) (waitRes : σ → Except ε ρ) (e : ε) :
    (callDriverStep contract isView confirmation viewRes stageRes
        submitRes waitRes).next = Control.functionSelector contract
    ∧ topLevelExitCode (Except.error e) = 1
    ∧ topLevelExitCode (ε := ε) (Except.ok ()) = 0 := by
  refine ⟨?_, rfl, rfl⟩
  rw [callDriverStep]
  rcases isView with _ | _ <;> rcases confirmation with _ | _ <;> simp

/-- C1: for a confirmed mutating call the three phases run in the order
stage, submit, await-receipt (the attempted phases are always a prefix of
that sequence), and a failure at any phase short-circuits the rest; in
particular when staging succeeds and submission fails, the reported failure
is the submission error and the receipt wait is never attempted. -/
theorem claim_C1_phase_order_and_short_circuit (γ ε τ σ ρ : Type) (contract : γ)
    (viewRes : Except ε ρ) (stageRes : Except ε τ) (submitRes : τ → Except ε σ)
    (waitRes : σ → Except ε ρ) :
    ((callDriverStep contract false true viewRes stageRes submitRes waitRes).phases <+:
        [Phase.stage, Phase.submit, Phase.awaitReceipt])
    ∧ (∀ e, stageRes = Except.error e →
        (callDriverStep contract false true viewRes stageRes submitRes waitRes).phases =
            [Phase.stage]
          ∧ (callDriverStep contract false true viewRes stageRes submitRes
              waitRes).reported = some (Except.error e))
    ∧ (∀ tx e, stageRes = Except.ok tx → submitRes tx = Except.error e →
        (callDriverStep contract false true viewRes stageRes submitRes waitRes).phases =
            [Phase.stage, Phase.submit]
          ∧ (callDriverStep contract false true viewRes stageRes submitRes
              waitRes).reported = some (Except.error e)
          ∧ Phase.awaitReceipt ∉
              (callDriverStep contract false true viewRes stageRes submitRes
                waitRes).phases)
    ∧ (∀ tx sent e, stageRes = Except.ok tx → submitRes tx = Except.ok sent →
        waitRes sent = Except.error e →
        (callDriverStep contract false true viewRes stageRes submitRes waitRes).phases =
            [Phase.stage, Phase.submit, Phase.awaitReceipt]
          ∧ (callDriverStep contract false true viewRes stageRes submitRes
              waitRes).reported = some (Except.error e)) := by
  refine ⟨?_, ?_, ?_, ?_⟩
  · rcases hstage : stageRes with e | tx
    · simp [callDriverStep, mutatingCall, runTxModel, hstage]
    · rcases hsub : submitRes tx with e | sent
      · simp [callDriverStep, mutatingCall, runTxModel, hstage, hsub]
      · rcases hwait : waitRes sent with e | receipt <;>
          simp [callDriverStep, mutatingCall, runTxModel, hstage, hsub, hwait]
  · rintro e rfl
    exact ⟨rfl, rfl⟩
  · rintro tx e rfl hsub
    refine ⟨?_, ?_, ?_⟩ <;> simp [callDriverStep, mutatingCall, runTxModel, hsub]
  · rintro tx sent e rfl hsub hwait
    constructor <;> simp [callDriverStep, mutatingCall, runTxModel, hsub, hwait]

/-- Witness for C1: staging succeeds, submission fails with error `7`; the
step stops after submit, reports error `7`, and never tries the receipt
wait. -/
theorem claim_C1_phase_order_and_short_circuit_witness :
    (callDriverStep (0 : Nat) false true (Except.ok (0 : Nat)) (Except.ok (0 : Nat))
        (fun _ => Except.error (7 : Nat)) (fun _ : Nat => Except.ok (0 : Nat))).phases =
        [Phase.stage, Phase.submit]
    ∧ (callDriverStep (0 : Nat) false true (Except.ok (0 : Nat)) (Except.ok (0 : Nat))
        (fun _ => Except.error (7 : Nat)) (fun _ : Nat => Except.ok (0 : Nat))).reported =
        some (Except.error 7)
    ∧ Phase.awaitReceipt ∉
        (callDriverStep (0 : Nat) false true (Except.ok (0 : Nat)) (Except.ok (0 : Nat))
          (fun _ => Except.error (7 : Nat)) (fun _ : Nat => Except.ok (0 : Nat))).phases :=
  (claim_C1_phase_order_and_short_circuit Nat Nat Nat Nat Nat 0 (Except.ok 0)
      (Except.ok 0) (fun _ => Except.error 7) (fun _ => Except.ok 0)).2.2.1
    0 7 rfl rfl

/-- C5: the Function Selector's ranked candidates are sorted by ascending
edit distance between the function name and the query — every adjacent pair
satisfies `distance(match[i], query) ≤ distance(match[i+1], query)` — and
candidates at equal distance keep their relative order from the original
ABI list (the comparator sort is stable). -/
theorem claim_C5_ranked_by_proximity (abi : List AbiItem) (query : String) (d : Nat)
    (i : Nat) (a b : AbiItem)
    (ha : (searchAbiRank abi query)[i]? = some a)
    (hb : (searchAbiRank abi query)[i + 1]? = some b) :
    abiProximity query a ≤ abiProximity query b
    ∧ (searchAbiRank abi query).filter (fun x => abiProximity query x == d) =
        abi.filter fun x => (abiProximity query x == d) && searchAbiPred query x := by
  constructor
  · have hp := sorted_jsSortByKey (abiProximity query) (searchAbiFilter abi query)
    rw [List.pairwise_iff_getElem] at hp
    rw [searchAbiRank] at ha hb
    rw [List.getElem?_eq_some] at ha hb
    obtain ⟨hia, ha2⟩ := ha
    obtain ⟨hib, hb2⟩ := hb
    have h := hp i (i + 1) hia hib (Nat.lt_succ_self i)
    rw [ha2, hb2] at h
    exact h
  · rw [searchAbiRank, filter_jsSortByKey, searchAbiFilter, List.filter_filter]

/-- Witness for C5 on a two-entry ABI given in reverse proximity order: the
ranked list puts the closer name first. -/
theorem claim_C5_ranked_by_proximity_witness :
    abiProximity "ab" itemAb ≤ abiProximity "ab" itemAbcd
    ∧ (searchAbiRank [itemAbcd, itemAb] "ab").filter
          (fun x => abiProximity "ab" x == 0) =
        [itemAbcd, itemAb].filter fun x =>
          (abiProximity "ab" x == 0) && searchAbiPred "ab" x :=
  claim_C5_ranked_by_proximity [itemAbcd, itemAb] "ab" 0 0 itemAb itemAbcd
    (by decide) (by decide)

/-- C10: the entry executed after selecting a signature is the first entry
of the full ABI whose name equals the text before the first `(` of the
selected signature; on the concrete overloaded ABI (an event named `foo`
listed before the displayed `foo()` view function) the executed entry is
the event, not the displayed function. -/
theorem claim_C10_find_first_by_name (pre post : List AbiItem) (item : AbiItem)
    (sig : String)
    (hpre : ∀ x ∈ pre, ¬(x.name = some (abiItemNameOf sig)))
    (hit : item.name = some (abiItemNameOf sig)) :
    findAbiItem (pre ++ item :: post) sig = some item
    ∧ searchAbi overloadAbi "foo" = [reduceSignature overloadFn]
    ∧ findAbiItem overloadAbi (reduceSignature overloadFn) = some overloadEvent
    ∧ overloadEvent ≠ overloadFn := by
  refine ⟨?_, by decide, by decide, by decide⟩
  revert hpre
  induction pre with
  | nil =>
    intro _
    simp [findAbiItem, List.find?_cons, hit]
  | cons x xs ih =>
    intro hpre
    have hx : ¬(x.name = some (abiItemNameOf sig)) := hpre x (List.mem_cons_self x xs)
    have ih2 := ih fun y hy => hpre y (List.mem_cons_of_mem x hy)
    rw [findAbiItem] at ih2 ⊢
    rw [List.cons_append, List.find?_cons, decide_eq_false hx]
    exact ih2

/-- Witness for C10: with the overloaded ABI, the first-match law applied at
the displayed signature resolves to the event entry. -/
theorem claim_C10_find_first_by_name_witness :
    findAbiItem ([] ++ overloadEvent :: [overloadFn]) (reduceSignature overloadFn) =
        some overloadEvent
    ∧ searchAbi overloadAbi "foo" = [reduceSignature overloadFn]
    ∧ findAbiItem overloadAbi (reduceSignature overloadFn) = some overloadEvent
    ∧ overloadEvent ≠ overloadFn :=
  claim_C10_find_first_by_name [] [overloadFn] overloadEvent (reduceSignature overloadFn)
    (by simp) (by decide)
